import Mathlib

/-!
# Verification of the ContentCache subsystem (src/cache/content_cache.py)

A shallow embedding of the multi-tier (memory + disk), TTL-bound, LRU-evicting
content cache, followed by theorems settling the specification's claims about
it.

Modelling conventions:
* Python `dict`s are embedded as association lists that preserve insertion
  order (assigning to an existing key keeps its position, a new key is
  appended at the end, `pop` removes the binding) — this matches CPython's
  documented dict semantics, on which `min(self._access_times, ...)` iteration
  order depends.
* `time.time()` values are integers (`Int`); every public operation receives
  the current time `now` as an explicit argument, and the (at most
  microseconds-apart) repeated clock reads inside one operation are modelled
  as returning that same `now`.  Ties between access timestamps of different
  operations are therefore representable, as they are in the real code at
  coarse clock resolution.
* The cached payload is an opaque type parameter `α`, mirroring the code's
  content-agnostic `Any`.
* The MD5 hex digest of `_generate_key` is modelled as an abstract
  deterministic encoding (`md5hex`); no claim depends on any property of MD5
  beyond its being a function of its input, so it is taken to be the identity
  on the serialized key data.
* Disk files hold either a well-formed pickled record or are corrupt
  (unreadable / failing to deserialize); `pickle.load` on a corrupt file is
  the `Exception` branch of `ContentCache.get`.
-/

namespace ContentCache

/-- Cache keys (MD5 hex digests in the source). -/
abbrev Key := String

/-- Auxiliary keyword-parameter values: flat string/number/boolean values, as
passed through `**kwargs` to `_generate_key` and serialized by `json.dumps`. -/
inductive PValue where
  | str (s : String)
  | int (n : Int)
  | bool (b : Bool)
deriving DecidableEq, Repr

/-- Parameter sets are keyword-argument lists: name/value pairs.  A Python
`**kwargs` dict never holds two bindings of the same name. -/
abbrev Params := List (String × PValue)

/-! ## Python dict operations on insertion-ordered association lists -/

/-- `d[k] = v` on a Python dict: replace the binding of `k` in place (keeping
its position) when present, otherwise append the new binding at the end. -/
def dictSet {β : Type} : List (Key × β) → Key → β → List (Key × β)
  | [], k, v => [(k, v)]
  | p :: rest, k, v => if p.1 = k then (k, v) :: rest else p :: dictSet rest k v

/-- `d.pop(k, None)` on a Python dict: remove the binding of `k`.  A Python
dict holds at most one binding per key, so dropping every binding of `k`
coincides with removing the single one. -/
def dictPop {β : Type} (l : List (Key × β)) (k : Key) : List (Key × β) :=
  l.filter (fun p => decide (p.1 ≠ k))

/-- `d.get(k)` / `k in d` lookup: first binding of `k`. -/
def dictGet {β : Type} : List (Key × β) → Key → Option β
  | [], _ => none
  | p :: rest, k => if p.1 = k then some p.2 else dictGet rest k

/-- `min(self._access_times, key=self._access_times.get)` from
`ContentCache._evict_lru`: Python's `min` scans the dict's keys in insertion
order and replaces the current best only on a strictly smaller value, so among
bindings tied at the minimal access time the earliest-inserted one wins. -/
def minByValue : List (Key × Int) → Option (Key × Int)
  | [] => none
  | p :: rest =>
    match minByValue rest with
    | none => some p
    | some q => if q.2 < p.2 then some q else some p

/-! ## Fingerprint generation (`ContentCache._generate_key`) -/

/-- `json.dumps(kwargs, sort_keys=True)` sorts the dict items by key name.
Embedded with `List.insertionSort` on the parameter names. -/
def sortParams (l : Params) : Params :=
  l.insertionSort (fun a b => a.1 ≤ b.1)

/-- JSON rendering of one parameter value (`json.dumps` of a leaf; string
escaping is immaterial to the claims and omitted). -/
def pvalueJson : PValue → String
  | .str s => "\"" ++ s ++ "\""
  | .int n => toString n
  | .bool true => "true"
  | .bool false => "false"

/-- `json.dumps(kwargs, sort_keys=True)`: items sorted by key, rendered with
the default `", "` / `": "` separators. -/
def jsonDumpsSorted (l : Params) : String :=
  "\x7b" ++ String.intercalate ", "
    ((sortParams l).map (fun p => "\"" ++ p.1 ++ "\": " ++ pvalueJson p.2)) ++ "\x7d"

/-- The MD5 hex digest, modelled as an abstract deterministic encoding of the
key data; every claim uses only that it is a function of its input. -/
def md5hex (s : String) : String := s

/-- `ContentCache._generate_key`: hash of
`f"{prompt}:{json.dumps(kwargs, sort_keys=True)}"`. -/
def generateKey (prompt : String) (kwargs : Params) : Key :=
  md5hex (prompt ++ ":" ++ jsonDumpsSorted kwargs)

/-! ## Cache state -/

/-- One disk-tier file: either the well-formed pickled record written by
`ContentCache.set` (fields `content`, `timestamp`, plus the non-authoritative
debug fields `prompt` excerpt and `kwargs`), or corrupt — unreadable or
failing to deserialize, the `except` branch of the disk read. -/
inductive DiskFile (α : Type) where
  | entry (content : α) (timestamp : Int) (promptExcerpt : String) (kwargs : Params)
  | corrupt
deriving DecidableEq, Repr

/-- The statistics counters held in `self._stats`. -/
structure Stats where
  hits : Nat
  misses : Nat
  memory_hits : Nat
  disk_hits : Nat
  evictions : Nat
deriving DecidableEq, Repr

/-- The mutable state of one `ContentCache` instance: the in-memory value map
`_memory_cache` (key ↦ (content, timestamp)), the parallel `_access_times`
map, the disk tier (one file per key under `cache_dir`), the configuration,
and the statistics counters. -/
structure CacheState (α : Type) where
  memory_cache : List (Key × (α × Int))
  access_times : List (Key × Int)
  disk : List (Key × DiskFile α)
  memory_cache_size : Int
  default_ttl : Int
  stats : Stats
deriving DecidableEq, Repr

/-- `ContentCache.__init__(cache_dir, memory_cache_size, default_ttl)`:
stores the configuration and starts with empty tiers and zeroed statistics.
The constructor performs no validation of `memory_cache_size` or
`default_ttl`; it is total. -/
def init (α : Type) (memory_cache_size : Int) (default_ttl : Int) : CacheState α :=
  { memory_cache := []
    access_times := []
    disk := []
    memory_cache_size := memory_cache_size
    default_ttl := default_ttl
    stats := ⟨0, 0, 0, 0, 0⟩ }

/-- `ContentCache._is_expired`: `time.time() - timestamp > self.default_ttl`. -/
def isExpired {α : Type} (s : CacheState α) (timestamp now : Int) : Bool :=
  now - timestamp > s.default_ttl

/-- `ContentCache._evict_lru`: if `_access_times` is empty do nothing;
otherwise find the key with the minimal access time (Python `min`, earliest
inserted among ties), pop it from both maps and count an eviction. -/
def evictLru {α : Type} (s : CacheState α) : CacheState α :=
  match minByValue s.access_times with
  | none => s
  | some lru =>
    { s with
      memory_cache := dictPop s.memory_cache lru.1
      access_times := dictPop s.access_times lru.1
      stats := { s.stats with evictions := s.stats.evictions + 1 } }

/-- `ContentCache._add_to_memory`: evict once if `len(self._memory_cache) >=
self.memory_cache_size`, then store `(content, timestamp)` under `key` and
record `now` as its access time. -/
def addToMemory {α : Type} (s : CacheState α) (key : Key) (content : α)
    (timestamp now : Int) : CacheState α :=
  let s := if (s.memory_cache.length : Int) ≥ s.memory_cache_size then evictLru s else s
  { s with
    memory_cache := dictSet s.memory_cache key (content, timestamp)
    access_times := dictSet s.access_times key now }

/-- The body of `ContentCache.get` after key generation: check the memory
tier (purging an expired hit and falling through), then the disk tier
(deleting an expired or corrupt file; promoting a valid hit into memory),
else a miss.  Returns the content-or-absent answer and the new state. -/
def getByKey {α : Type} (s : CacheState α) (key : Key) (now : Int) :
    Option α × CacheState α :=
  -- memory tier
  match dictGet s.memory_cache key with
  | some (content, timestamp) =>
    if isExpired s timestamp now then
      -- expired: remove from both maps, fall through to the disk tier
      let s := { s with
        memory_cache := dictPop s.memory_cache key
        access_times := dictPop s.access_times key }
      getDisk s key now
    else
      -- valid memory hit: touch and return
      (some content,
        { s with
          access_times := dictSet s.access_times key now
          stats := { s.stats with
            hits := s.stats.hits + 1
            memory_hits := s.stats.memory_hits + 1 } })
  | none => getDisk s key now
where
  /-- The disk-tier half of `ContentCache.get`: expired files and files that
  fail to load are deleted and fall through to the miss branch. -/
  getDisk (s : CacheState α) (key : Key) (now : Int) : Option α × CacheState α :=
    match dictGet s.disk key with
    | some (.entry content timestamp _ _) =>
      if isExpired s timestamp now then
        miss { s with disk := dictPop s.disk key }
      else
        let s := addToMemory s key content timestamp now
        (some content,
          { s with stats := { s.stats with
              hits := s.stats.hits + 1
              disk_hits := s.stats.disk_hits + 1 } })
    | some .corrupt => miss { s with disk := dictPop s.disk key }
    | none => miss s
  /-- The shared miss branch: count a miss, return `None`. -/
  miss (s : CacheState α) : Option α × CacheState α :=
    (none, { s with stats := { s.stats with misses := s.stats.misses + 1 } })

/-- `ContentCache.get(prompt, **kwargs)`: generate the key, then run the
two-tier lookup at that key. -/
def get {α : Type} (s : CacheState α) (prompt : String) (kwargs : Params)
    (now : Int) : Option α × CacheState α :=
  getByKey s (generateKey prompt kwargs) now

/-- `ContentCache.set(prompt, content, **kwargs)`: generate the key, stamp
`now`, add to the memory tier, and write the pickled record (content,
timestamp, first 100 characters of the prompt, kwargs) to the key's disk
file. -/
def set {α : Type} (s : CacheState α) (prompt : String) (content : α)
    (kwargs : Params) (now : Int) : CacheState α :=
  let key := generateKey prompt kwargs
  let s := addToMemory s key content now now
  { s with disk := dictSet s.disk key (.entry content now (prompt.take 100) kwargs) }

/-- `ContentCache.clear(memory_only)`: empty both memory maps; unless
`memory_only`, also delete every `*.cache` file on disk. -/
def clear {α : Type} (s : CacheState α) (memoryOnly : Bool) : CacheState α :=
  let s := { s with memory_cache := ([] : List (Key × (α × Int))), access_times := [] }
  if memoryOnly then s else { s with disk := [] }

/-- `ContentCache.cleanup_expired()`: scan the disk files, delete each one
that is expired or fails to load (both are counted as removed), and return
the count. -/
def cleanupExpired {α : Type} (s : CacheState α) (now : Int) : Nat × CacheState α :=
  let keep := s.disk.filter (fun p =>
    match p.2 with
    | .entry _ timestamp _ _ => ¬ isExpired s timestamp now
    | .corrupt => false)
  (s.disk.length - keep.length, { s with disk := keep })

/-- The fields of `ContentCache.get_stats()` used by the claims (the
`hit_rate` percentage string, a formatted float, is omitted). -/
structure StatsReport where
  memory_entries : Nat
  disk_entries : Nat
  total_hits : Nat
  total_misses : Nat
  memory_hits : Nat
  disk_hits : Nat
  evictions : Nat
deriving DecidableEq, Repr

/-- `ContentCache.get_stats()`: a snapshot of the counters plus live tier
sizes. -/
def getStats {α : Type} (s : CacheState α) : StatsReport :=
  { memory_entries := s.memory_cache.length
    disk_entries := s.disk.length
    total_hits := s.stats.hits
    total_misses := s.stats.misses
    memory_hits := s.stats.memory_hits
    disk_hits := s.stats.disk_hits
    evictions := s.stats.evictions }

/-- The key list of a dict, in iteration order. -/
def keysOf {β : Type} (l : List (Key × β)) : List Key := l.map Prod.fst

/-- The memory-tier invariant stated by the specification: the value map
never exceeds the configured capacity, and the value map and the access-time
map bind exactly the same keys (in fact, in the same dict order, since every
operation updates them in lockstep). -/
def Inv {α : Type} (s : CacheState α) : Prop :=
  (s.memory_cache.length : Int) ≤ s.memory_cache_size ∧
  keysOf s.memory_cache = keysOf s.access_times

/-- The minimal access time among a list of bindings (`none` when empty). -/
def minTime : List (Key × Int) → Option Int
  | [] => none
  | p :: rest =>
    match minTime rest with
    | none => some p.2
    | some m => some (min p.2 m)

/-- The LRU choice characterized independently of `min`'s implementation: the
earliest-inserted binding among those carrying the minimal access time.  This
is what `_evict_lru` actually selects (proved below); the specification's
claimed tie-break — the lexicographically smallest key — is not. -/
def lruChoice (l : List (Key × Int)) : Option Key :=
  match minTime l with
  | none => none
  | some m => (l.find? (fun p => decide (p.2 = m))).map Prod.fst

/-- The five public Coordinator operations of `ContentCache`. -/
inductive CoordinatorOp where
  | get
  | set
  | clear
  | cleanupExpired
  | stats
deriving DecidableEq, Repr

/-- Whether the operation wraps its shared-state accesses in
`with self._lock`, transcribed from content_cache.py: `get` acquires the lock
around both tier lookups (line 136), `set` around both tier writes
(line 214), `clear` around its whole body (line 244), and `get_stats` around
its snapshot (line 296); `cleanup_expired` (lines 261–287) scans and deletes
disk files without ever acquiring the lock.  (In `get` and `set`, the pure
key derivation runs before acquisition; they touch no shared state there.) -/
def acquiresLock : CoordinatorOp → Bool
  | .get => true
  | .set => true
  | .clear => true
  | .cleanupExpired => false
  | .stats => true

/-- The sequence of states the target disk file passes through during the
disk write of `ContentCache.set` (lines 228–229): `open(cache_file, 'wb')`
truncates the existing file in place, then `pickle.dump` streams the record
into it.  No temporary file or atomic rename is involved, so between the
truncation and the completed dump the file holds a partial pickle — modelled
as `DiskFile.corrupt`.  Index 0: before the write; index 1: after truncation,
mid-dump; index 2: after the dump completes. -/
def setDiskWriteStates {α : Type} (prior : Option (DiskFile α)) (newEntry : DiskFile α) :
    List (Option (DiskFile α)) :=
  [prior, some DiskFile.corrupt, some newEntry]

/-! ## Concrete states used by witnesses -/

/-- A capacity-2 cache after two `set`s performed at the same clock reading
(a tie between the two access times): the key of "y" was inserted first,
although the key of "x" is the lexicographically smaller of the two. -/
def tiedState : CacheState String :=
  ContentCache.set (ContentCache.set (ContentCache.init String 2 1000) "y" "vy" [] 10)
    "x" "vx" [] 10

/-- A capacity-2 cache after `set("A")` then `set("B")` at increasing times:
full, with the key of "A" the least recently touched. -/
def fullState : CacheState String :=
  ContentCache.set (ContentCache.set (ContentCache.init String 2 1000) "A" "a1" [] 1)
    "B" "b1" [] 2

/-- A cache state whose disk tier holds one corrupt file (garbage bytes
written at `<root>/<fingerprint>.cache`, as in the specification's corruption
scenario) and whose memory tier is empty. -/
def corruptDiskState : CacheState String :=
  { memory_cache := []
    access_times := []
    disk := [(generateKey "p" [], DiskFile.corrupt)]
    memory_cache_size := 2
    default_ttl := 100
    stats := ⟨0, 0, 0, 0, 0⟩ }

end ContentCache

namespace ContentCache

/-! ## Dictionary lemmas -/

theorem dictGet_dictSet_self {β : Type} (l : List (Key × β)) (k : Key) (v : β) :
    dictGet (dictSet l k v) k = some v := by
  induction l with
  | nil => simp [dictSet, dictGet]
  | cons p rest ih =>
    by_cases h : p.1 = k
    · simp [dictSet, h, dictGet]
    · simp [dictSet, h, dictGet, ih]

theorem dictGet_dictPop_self {β : Type} (l : List (Key × β)) (k : Key) :
    dictGet (dictPop l k) k = none := by
  induction l with
  | nil => rfl
  | cons p rest ih =>
    by_cases h : p.1 = k
    · simpa [dictPop, List.filter, h] using ih
    · simpa [dictPop, List.filter, h, dictGet] using ih

theorem dictGet_isSome_iff_mem_keys {β : Type} (l : List (Key × β)) (k : Key) :
    (dictGet l k).isSome ↔ k ∈ keysOf l := by
  induction l with
  | nil => simp [dictGet, keysOf]
  | cons p rest ih =>
    by_cases h : p.1 = k
    · simp [dictGet, h, keysOf]
    · simp [dictGet, h, keysOf, ih]
      intro he
      exact absurd he.symm h

theorem keysOf_dictSet {β : Type} (l : List (Key × β)) (k : Key) (v : β) :
    keysOf (dictSet l k v) =
      if (dictGet l k).isSome then keysOf l else keysOf l ++ [k] := by
  induction l with
  | nil => simp [dictSet, dictGet, keysOf]
  | cons p rest ih =>
    by_cases h : p.1 = k
    · simp [dictSet, dictGet, h, keysOf]
    · simp only [dictSet, dictGet, if_neg h, keysOf, List.map_cons] at ih ⊢
      rw [ih]
      by_cases hs : (dictGet rest k).isSome
      · simp [hs]
      · simp [hs]

theorem length_dictSet {β : Type} (l : List (Key × β)) (k : Key) (v : β) :
    (dictSet l k v).length =
      if (dictGet l k).isSome then l.length else l.length + 1 := by
  induction l with
  | nil => simp [dictSet, dictGet]
  | cons p rest ih =>
    by_cases h : p.1 = k
    · simp [dictSet, dictGet, h]
    · simp only [dictSet, dictGet, if_neg h, List.length_cons] at ih ⊢
      rw [ih]
      by_cases hs : (dictGet rest k).isSome
      · simp [hs]
      · simp [hs]

theorem keysOf_dictPop {β : Type} (l : List (Key × β)) (k : Key) :
    keysOf (dictPop l k) = (keysOf l).filter (fun x => decide (x ≠ k)) := by
  induction l with
  | nil => rfl
  | cons p rest ih =>
    by_cases h : p.1 = k
    · simp [dictPop, List.filter, h, keysOf] at ih ⊢
      exact ih
    · simp [dictPop, List.filter, h, keysOf] at ih ⊢
      exact ih

theorem length_dictPop_le {β : Type} (l : List (Key × β)) (k : Key) :
    (dictPop l k).length ≤ l.length :=
  List.length_filter_le _ _

theorem length_dictPop_lt {β : Type} (l : List (Key × β)) (k : Key)
    (h : k ∈ keysOf l) : (dictPop l k).length < l.length := by
  induction l with
  | nil => simp [keysOf] at h
  | cons p rest ih =>
    by_cases hp : p.1 = k
    · have hstep : dictPop (p :: rest) k = dictPop rest k := by
        simp [dictPop, List.filter_cons, hp]
      rw [hstep]
      exact Nat.lt_succ_of_le (length_dictPop_le rest k)
    · have hk : k ∈ keysOf rest := by
        simp [keysOf] at h
        rcases h with h | h
        · exact absurd h.symm hp
        · simpa [keysOf] using h
      have hstep : dictPop (p :: rest) k = p :: dictPop rest k := by
        simp [dictPop, List.filter_cons, hp]
      rw [hstep, List.length_cons, List.length_cons]
      exact Nat.succ_lt_succ (ih hk)

/-! ## LRU-selection lemmas -/

theorem minByValue_eq_none {l : List (Key × Int)} :
    minByValue l = none ↔ l = [] := by
  cases l with
  | nil => simp [minByValue]
  | cons p rest =>
    simp only [minByValue]
    cases minByValue rest with
    | none => simp
    | some q => by_cases h : q.2 < p.2 <;> simp [h]

theorem minByValue_mem {l : List (Key × Int)} {p : Key × Int}
    (h : minByValue l = some p) : p ∈ l := by
  induction l generalizing p with
  | nil => simp [minByValue] at h
  | cons a rest ih =>
    simp only [minByValue] at h
    cases hm : minByValue rest with
    | none =>
      rw [hm] at h
      simp at h
      simp [h]
    | some q =>
      rw [hm] at h
      by_cases hq : q.2 < a.2
      · simp [hq] at h
        exact List.mem_cons_of_mem a (h ▸ ih hm)
      · simp [hq] at h
        simp [h]

theorem minByValue_le {l : List (Key × Int)} {p : Key × Int}
    (h : minByValue l = some p) : ∀ q ∈ l, p.2 ≤ q.2 := by
  induction l generalizing p with
  | nil => simp [minByValue] at h
  | cons a rest ih =>
    simp only [minByValue] at h
    cases hm : minByValue rest with
    | none =>
      rw [hm] at h
      simp at h
      have : rest = [] := minByValue_eq_none.mp hm
      subst this
      simp [← h]
    | some q =>
      rw [hm] at h
      intro r hr
      rcases List.mem_cons.mp hr with hra | hrr
      · by_cases hq : q.2 < a.2
        · simp [hq] at h
          subst hra
          exact le_of_lt (h ▸ hq)
        · simp [hq] at h
          subst hra
          exact le_of_eq (congrArg Prod.snd h).symm
      · by_cases hq : q.2 < a.2
        · simp [hq] at h
          exact ih (h ▸ hm) r hrr
        · simp [hq] at h
          have hqr := ih hm r hrr
          have : p.2 ≤ q.2 := le_of_not_lt (h ▸ hq)
          exact le_trans this hqr

theorem minByValue_isSome {l : List (Key × Int)} (h : l ≠ []) :
    ∃ p, minByValue l = some p := by
  cases hm : minByValue l with
  | none => exact absurd (minByValue_eq_none.mp hm) h
  | some p => exact ⟨p, rfl⟩

/-- `_evict_lru`'s `min(…)` selects exactly the earliest-inserted binding
among those with the minimal access time. -/
theorem minByValue_eq_lruChoice {l : List (Key × Int)} {p : Key × Int}
    (h : minByValue l = some p) :
    minTime l = some p.2 ∧ lruChoice l = some p.1 := by
  suffices hs : minTime l = some p.2 ∧ l.find? (fun q => decide (q.2 = p.2)) = some p by
    refine ⟨hs.1, ?_⟩
    have hlc : lruChoice l =
        Option.map Prod.fst (List.find? (fun q => decide (q.2 = p.2)) l) := by
      unfold lruChoice
      rw [hs.1]
    rw [hlc, hs.2]
    rfl
  induction l generalizing p with
  | nil => simp [minByValue] at h
  | cons a rest ih =>
    simp only [minByValue] at h
    cases hm : minByValue rest with
    | none =>
      rw [hm] at h
      simp at h
      have hrest : rest = [] := minByValue_eq_none.mp hm
      subst hrest
      subst h
      simp [minTime, List.find?]
    | some q =>
      rw [hm] at h
      obtain ⟨ihm, ihf⟩ := ih hm
      by_cases hq : q.2 < a.2
      · simp only [if_pos hq] at h
        obtain rfl : q = p := Option.some.inj h
        constructor
        · simp [minTime, ihm, min_eq_right (le_of_lt hq)]
        · have hne : ¬ a.2 = q.2 := by
            intro he
            exact absurd (he ▸ hq) (lt_irrefl _)
          rw [List.find?_cons_of_neg _ (by simpa using hne), ihf]
      · simp only [if_neg hq] at h
        obtain rfl : a = p := Option.some.inj h
        constructor
        · simp [minTime, ihm, min_eq_left (le_of_not_lt hq)]
        · rw [List.find?_cons_of_pos _ (by simp)]

/-! ## Configuration preservation -/

theorem evictLru_config {α : Type} (s : CacheState α) :
    (evictLru s).memory_cache_size = s.memory_cache_size ∧
    (evictLru s).default_ttl = s.default_ttl ∧
    (evictLru s).disk = s.disk := by
  rcases hm : minByValue s.access_times with _ | p <;> simp [evictLru, hm]

theorem addToMemory_config {α : Type} (s : CacheState α) (k : Key) (c : α)
    (ts now : Int) :
    (addToMemory s k c ts now).memory_cache_size = s.memory_cache_size ∧
    (addToMemory s k c ts now).default_ttl = s.default_ttl ∧
    (addToMemory s k c ts now).disk = s.disk := by
  refine ⟨?_, ?_, ?_⟩
  all_goals
    by_cases h : (s.memory_cache.length : Int) ≥ s.memory_cache_size <;>
      rcases hm : minByValue s.access_times with _ | p <;>
        simp [addToMemory, evictLru, h, hm]

theorem addToMemory_memory {α : Type} (s : CacheState α) (k : Key) (c : α)
    (ts now : Int) :
    (addToMemory s k c ts now).memory_cache =
      dictSet (if (s.memory_cache.length : Int) ≥ s.memory_cache_size
               then evictLru s else s).memory_cache k (c, ts) := by
  unfold addToMemory
  by_cases h : (s.memory_cache.length : Int) ≥ s.memory_cache_size <;> simp [h]

theorem dictGet_addToMemory_self {α : Type} (s : CacheState α) (k : Key) (c : α)
    (ts now : Int) :
    dictGet (addToMemory s k c ts now).memory_cache k = some (c, ts) := by
  rw [addToMemory_memory]
  exact dictGet_dictSet_self _ _ _

theorem set_ttl {α : Type} (s : CacheState α) (prompt : String) (content : α)
    (kwargs : Params) (now : Int) :
    (ContentCache.set s prompt content kwargs now).default_ttl = s.default_ttl := by
  have h := (addToMemory_config s (generateKey prompt kwargs) content now now).2.1
  unfold ContentCache.set
  exact h

theorem set_memory_lookup {α : Type} (s : CacheState α) (prompt : String)
    (content : α) (kwargs : Params) (now : Int) :
    dictGet (ContentCache.set s prompt content kwargs now).memory_cache
      (generateKey prompt kwargs) = some (content, now) := by
  have h := dictGet_addToMemory_self s (generateKey prompt kwargs) content now now
  unfold ContentCache.set
  exact h

/-! ## The eviction performed by a full-capacity insert -/

/-- When `_add_to_memory` runs against a full memory tier (with aligned key
maps and a positive capacity), exactly one entry is evicted before the new
binding is stored: the one `min` selects, which carries the minimal access
time and, among ties, is the earliest-inserted binding — and the eviction
counter increments by one. -/
theorem addToMemory_full_evicts {α : Type} (s : CacheState α) (k : Key) (c : α)
    (ts now : Int)
    (hkeys : keysOf s.memory_cache = keysOf s.access_times)
    (hcap : 1 ≤ s.memory_cache_size)
    (hfull : (s.memory_cache.length : Int) ≥ s.memory_cache_size) :
    ∃ e te, minByValue s.access_times = some (e, te) ∧
      lruChoice s.access_times = some e ∧
      (∀ q ∈ s.access_times, te ≤ q.2) ∧
      (addToMemory s k c ts now).memory_cache =
        dictSet (dictPop s.memory_cache e) k (c, ts) ∧
      (addToMemory s k c ts now).access_times =
        dictSet (dictPop s.access_times e) k now ∧
      (addToMemory s k c ts now).stats.evictions = s.stats.evictions + 1 := by
  have hmne : s.memory_cache ≠ [] := by
    intro hnil
    rw [hnil] at hfull
    simp at hfull
    omega
  have hane : s.access_times ≠ [] := by
    intro hnil
    apply hmne
    rw [hnil] at hkeys
    simpa [keysOf] using hkeys
  obtain ⟨⟨e, te⟩, hm⟩ := minByValue_isSome hane
  refine ⟨e, te, hm, (minByValue_eq_lruChoice hm).2, minByValue_le hm, ?_, ?_, ?_⟩
  · unfold addToMemory
    simp only [if_pos hfull]
    unfold evictLru
    rw [hm]
  · unfold addToMemory
    simp only [if_pos hfull]
    unfold evictLru
    rw [hm]
  · unfold addToMemory
    simp only [if_pos hfull]
    unfold evictLru
    rw [hm]

/-! ## Invariant preservation -/

theorem keysOf_dictSet_eq {β γ : Type} (l1 : List (Key × β)) (l2 : List (Key × γ))
    (k : Key) (v : β) (w : γ) (h : keysOf l1 = keysOf l2) :
    keysOf (dictSet l1 k v) = keysOf (dictSet l2 k w) := by
  have hiff : (dictGet l1 k).isSome ↔ (dictGet l2 k).isSome := by
    rw [dictGet_isSome_iff_mem_keys, dictGet_isSome_iff_mem_keys, h]
  have hbe : (dictGet l1 k).isSome = (dictGet l2 k).isSome := by
    by_cases hb : (dictGet l2 k).isSome
    · rw [hb, hiff.mpr hb]
    · rw [Bool.eq_false_iff.mpr hb, Bool.eq_false_iff.mpr (fun hx => hb (hiff.mp hx))]
  rw [keysOf_dictSet, keysOf_dictSet, h, hbe]

theorem evictLru_inv {α : Type} (s : CacheState α) (h : Inv s) : Inv (evictLru s) := by
  obtain ⟨hlen, hkeys⟩ := h
  unfold evictLru
  cases hm : minByValue s.access_times with
  | none => exact ⟨hlen, hkeys⟩
  | some p =>
    constructor
    · calc ((dictPop s.memory_cache p.1).length : Int)
          ≤ (s.memory_cache.length : Int) := Int.ofNat_le.mpr (length_dictPop_le _ _)
        _ ≤ s.memory_cache_size := hlen
    · simp only [keysOf_dictPop, hkeys]

theorem addToMemory_inv {α : Type} (s : CacheState α) (k : Key) (c : α)
    (ts now : Int) (hcap : 1 ≤ s.memory_cache_size) (h : Inv s) :
    Inv (addToMemory s k c ts now) := by
  obtain ⟨hlen, hkeys⟩ := h
  unfold addToMemory
  by_cases hfull : (s.memory_cache.length : Int) ≥ s.memory_cache_size
  · simp only [if_pos hfull]
    -- the tier is full and nonempty, so an entry is evicted first
    have hmne : s.memory_cache ≠ [] := by
      intro hnil
      rw [hnil] at hfull
      simp at hfull
      omega
    have hane : s.access_times ≠ [] := by
      intro hnil
      apply hmne
      rw [hnil] at hkeys
      simpa [keysOf] using hkeys
    obtain ⟨⟨e, te⟩, hm⟩ := minByValue_isSome hane
    have hemem : e ∈ keysOf s.access_times :=
      List.mem_map_of_mem Prod.fst (minByValue_mem hm)
    have hemem' : e ∈ keysOf s.memory_cache := hkeys ▸ hemem
    have hp1 : (evictLru s).memory_cache = dictPop s.memory_cache e := by
      simp [evictLru, hm]
    have hp2 : (evictLru s).access_times = dictPop s.access_times e := by
      simp [evictLru, hm]
    have hp3 : (evictLru s).memory_cache_size = s.memory_cache_size := by
      simp [evictLru, hm]
    constructor
    · show ((dictSet (evictLru s).memory_cache k (c, ts)).length : Int) ≤
        (evictLru s).memory_cache_size
      rw [hp1, hp3, length_dictSet]
      have hlt := length_dictPop_lt s.memory_cache e hemem'
      by_cases hs : (dictGet (dictPop s.memory_cache e) k).isSome
      · simp only [if_pos hs]
        omega
      · simp only [if_neg hs]
        push_cast
        omega
    · show keysOf (dictSet (evictLru s).memory_cache k (c, ts)) =
        keysOf (dictSet (evictLru s).access_times k now)
      rw [hp1, hp2]
      exact keysOf_dictSet_eq _ _ _ _ _
        (by rw [keysOf_dictPop, keysOf_dictPop, hkeys])
  · simp only [if_neg hfull]
    constructor
    · rw [length_dictSet]
      by_cases hs : (dictGet s.memory_cache k).isSome
      · simp only [if_pos hs]
        exact hlen
      · simp only [if_neg hs]
        push_cast
        omega
    · exact keysOf_dictSet_eq _ _ _ _ _ hkeys

theorem getDisk_inv {α : Type} (s : CacheState α) (key : Key) (now : Int)
    (hcap : 1 ≤ s.memory_cache_size) (h : Inv s) :
    Inv (getByKey.getDisk s key now).2 := by
  cases hd : dictGet s.disk key with
  | none =>
    simp only [getByKey.getDisk, getByKey.miss, hd]
    exact ⟨h.1, h.2⟩
  | some f =>
    cases f with
    | corrupt =>
      simp only [getByKey.getDisk, getByKey.miss, hd]
      exact ⟨h.1, h.2⟩
    | entry c ts pe kw =>
      cases hb : isExpired s ts now
      · simp only [getByKey.getDisk, getByKey.miss, hd, hb, Bool.false_eq_true,
          if_false]
        have hi := addToMemory_inv s key c ts now hcap h
        exact ⟨hi.1, hi.2⟩
      · simp only [getByKey.getDisk, getByKey.miss, hd, hb, if_true]
        exact ⟨h.1, h.2⟩

theorem getByKey_inv {α : Type} (s : CacheState α) (key : Key) (now : Int)
    (hcap : 1 ≤ s.memory_cache_size) (h : Inv s) :
    Inv (getByKey s key now).2 := by
  cases hg : dictGet s.memory_cache key with
  | none =>
    simp only [getByKey, hg]
    exact getDisk_inv s key now hcap h
  | some p =>
    obtain ⟨c, ts⟩ := p
    cases hb : isExpired s ts now
    · -- valid memory hit: only the access time of an existing key is updated
      simp only [getByKey, hg, hb, Bool.false_eq_true, if_false]
      constructor
      · exact h.1
      · have hk : (dictGet s.access_times key).isSome := by
          rw [dictGet_isSome_iff_mem_keys, ← h.2, ← dictGet_isSome_iff_mem_keys, hg]
          rfl
        show keysOf s.memory_cache = keysOf (dictSet s.access_times key now)
        rw [keysOf_dictSet, if_pos hk]
        exact h.2
    · -- expired memory entry: both maps are purged, then the disk tier runs
      simp only [getByKey, hg, hb, if_true]
      have hpops : Inv { s with memory_cache := dictPop s.memory_cache key,
                                access_times := dictPop s.access_times key } := by
        constructor
        · exact le_trans (Int.ofNat_le.mpr (length_dictPop_le _ _)) h.1
        · show keysOf (dictPop s.memory_cache key) = keysOf (dictPop s.access_times key)
          rw [keysOf_dictPop, keysOf_dictPop, h.2]
      exact getDisk_inv _ key now hcap hpops

theorem set_inv {α : Type} (s : CacheState α) (prompt : String) (content : α)
    (kwargs : Params) (now : Int) (hcap : 1 ≤ s.memory_cache_size) (h : Inv s) :
    Inv (ContentCache.set s prompt content kwargs now) := by
  have hi := addToMemory_inv s (generateKey prompt kwargs) content now now hcap h
  exact ⟨hi.1, hi.2⟩

theorem clear_inv {α : Type} (s : CacheState α) (memoryOnly : Bool)
    (hcap : 1 ≤ s.memory_cache_size) : Inv (clear s memoryOnly) := by
  cases memoryOnly <;>
    exact ⟨by simpa using le_trans zero_le_one hcap, rfl⟩

theorem cleanupExpired_inv {α : Type} (s : CacheState α) (now : Int)
    (h : Inv s) : Inv (cleanupExpired s now).2 :=
  ⟨h.1, h.2⟩

/-! ## The corrupt-file path of `get` -/

/-- A `get` that reaches a corrupt disk file returns `None` and deletes the
file: the `pickle.load` exception is caught, `cache_file.unlink(missing_ok=
True)` runs, and control falls through to the miss branch. -/
theorem getByKey_corrupt {α : Type} (s : CacheState α) (key : Key) (now : Int)
    (hmem : dictGet s.memory_cache key = none)
    (hdisk : dictGet s.disk key = some DiskFile.corrupt) :
    (getByKey s key now).1 = none ∧
    dictGet (getByKey s key now).2.disk key = none := by
  simp [getByKey, getByKey.getDisk, getByKey.miss, hmem, hdisk, dictGet_dictPop_self]

/-! ## Claims -/

/-- C1: for every valid (primaryText, params, content), `set` followed
immediately by `get` on the same instance with the same primary text and
parameters — the TTL not yet elapsed — returns exactly that content,
unchanged. -/
theorem C1_set_get_round_trip {α : Type} (s : CacheState α) (prompt : String)
    (content : α) (kwargs : Params) (now1 now2 : Int)
    (h : now2 - now1 ≤ s.default_ttl) :
    (ContentCache.get (ContentCache.set s prompt content kwargs now1)
      prompt kwargs now2).1 = some content := by
  have hkey := set_memory_lookup s prompt content kwargs now1
  have httl := set_ttl s prompt content kwargs now1
  have hlt : ¬ (now2 - now1 > s.default_ttl) := by omega
  simp [ContentCache.get, getByKey, hkey, isExpired, httl, hlt]

/-- Witness for C1 at a concrete instance. -/
theorem C1_set_get_round_trip_witness :
    (ContentCache.get (ContentCache.set (ContentCache.init String 10 1000)
      "p" "c" [] 1) "p" [] 2).1 = some "c" :=
  C1_set_get_round_trip (ContentCache.init String 10 1000) "p" "c" [] 1 2 (by decide)

/-- C2 counterexample: a capacity-2 cache holding two entries whose access
times are tied at clock 10, where the earlier-inserted binding (the key of
"y") is the lexicographically larger one.  A third insert evicts the key of
"y" — the earliest-inserted among the tied bindings — while the
lexicographically smallest key (that of "x") survives, contradicting the
claimed lexicographic tie-break. -/
theorem C2_counterexample :
    generateKey "x" [] < generateKey "y" [] ∧
    tiedState.access_times =
      [(generateKey "y" [], 10), (generateKey "x" [], 10)] ∧
    keysOf (ContentCache.set tiedState "z" "vz" [] 10).memory_cache =
      [generateKey "x" [], generateKey "z" []] :=
  ⟨String.lt_iff_toList_lt.mpr (by decide), by decide, by decide⟩

/-- C2 amended: whenever an insert of a fresh key into a full memory tier
occurs (aligned key maps, positive capacity), exactly one entry is evicted
first: the one with the oldest access timestamp, and among entries tied at
that oldest timestamp the earliest-inserted one (Python dict iteration
order) — not the lexicographically smallest key. -/
theorem C2_amended_eviction {α : Type} (s : CacheState α) (k : Key) (c : α)
    (ts now : Int)
    (hkeys : keysOf s.memory_cache = keysOf s.access_times)
    (hcap : 1 ≤ s.memory_cache_size)
    (hfull : (s.memory_cache.length : Int) ≥ s.memory_cache_size)
    (_hnew : dictGet s.memory_cache k = none) :
    ∃ e te, minByValue s.access_times = some (e, te) ∧
      lruChoice s.access_times = some e ∧
      (∀ q ∈ s.access_times, te ≤ q.2) ∧
      (addToMemory s k c ts now).memory_cache =
        dictSet (dictPop s.memory_cache e) k (c, ts) ∧
      (addToMemory s k c ts now).access_times =
        dictSet (dictPop s.access_times e) k now ∧
      (addToMemory s k c ts now).stats.evictions = s.stats.evictions + 1 :=
  addToMemory_full_evicts s k c ts now hkeys hcap hfull

/-- Witness for the amended C2 at a concrete tied state. -/
theorem C2_amended_eviction_witness :
    ∃ e te, minByValue tiedState.access_times = some (e, te) ∧
      lruChoice tiedState.access_times = some e ∧
      (∀ q ∈ tiedState.access_times, te ≤ q.2) ∧
      (addToMemory tiedState (generateKey "z" []) "vz" 10 10).memory_cache =
        dictSet (dictPop tiedState.memory_cache e) (generateKey "z" []) ("vz", 10) ∧
      (addToMemory tiedState (generateKey "z" []) "vz" 10 10).access_times =
        dictSet (dictPop tiedState.access_times e) (generateKey "z" []) 10 ∧
      (addToMemory tiedState (generateKey "z" []) "vz" 10 10).stats.evictions =
        tiedState.stats.evictions + 1 :=
  C2_amended_eviction tiedState (generateKey "z" []) "vz" 10 10
    (by decide) (by decide) (by decide) (by decide)

/-- C3 counterexample: the disk write of `set` opens the target file with
mode `wb`, truncating it in place before `pickle.dump` writes the new
record.  The mid-write state is neither the prior entry nor the completed
new one, so an interrupted write does not leave the prior file untouched. -/
theorem C3_counterexample :
    ∃ mid ∈ setDiskWriteStates (some (DiskFile.entry "old" 0 "q" []))
      (DiskFile.entry "new" 5 "q" []),
      mid ≠ some (DiskFile.entry "old" (0 : Int) "q" []) ∧
      mid ≠ some (DiskFile.entry "new" (5 : Int) "q" []) := by decide

/-- C3 amended: the disk write is not an atomic replace — it truncates the
target in place, and its mid-write state is a partial (corrupt) file, the
prior entry being destroyed; the completed write holds the new entry.  A
subsequent lookup that observes the mid-write state is never served partial
content: it returns absent and deletes the file. -/
theorem C3_amended_direct_write {α : Type} (prior : Option (DiskFile α))
    (newEntry : DiskFile α) (s : CacheState α) (prompt : String)
    (kwargs : Params) (now : Int) (c0 : α) (t0 : Int) (p0 : String) (k0 : Params)
    (hprior : prior = some (DiskFile.entry c0 t0 p0 k0))
    (hmem : dictGet s.memory_cache (generateKey prompt kwargs) = none)
    (hdisk : dictGet s.disk (generateKey prompt kwargs) = some DiskFile.corrupt) :
    (setDiskWriteStates prior newEntry)[1]? = some (some DiskFile.corrupt) ∧
    (setDiskWriteStates prior newEntry)[1]? ≠ some prior ∧
    (setDiskWriteStates prior newEntry)[2]? = some (some newEntry) ∧
    (ContentCache.get s prompt kwargs now).1 = none ∧
    dictGet (ContentCache.get s prompt kwargs now).2.disk
      (generateKey prompt kwargs) = none := by
  refine ⟨rfl, ?_, rfl,
    (getByKey_corrupt s (generateKey prompt kwargs) now hmem hdisk).1,
    (getByKey_corrupt s (generateKey prompt kwargs) now hmem hdisk).2⟩
  rw [hprior]
  simp [setDiskWriteStates]

/-- Witness for the amended C3 at a concrete interrupted write. -/
theorem C3_amended_direct_write_witness :
    (setDiskWriteStates (some (DiskFile.entry "old" 0 "q" []))
      (DiskFile.entry "new" 5 "q" []))[1]? = some (some DiskFile.corrupt) ∧
    (setDiskWriteStates (some (DiskFile.entry "old" 0 "q" []))
      (DiskFile.entry "new" 5 "q" []))[1]? ≠
        some (some (DiskFile.entry "old" 0 "q" [])) ∧
    (setDiskWriteStates (some (DiskFile.entry "old" 0 "q" []))
      (DiskFile.entry "new" 5 "q" []))[2]? =
        some (some (DiskFile.entry "new" 5 "q" [])) ∧
    (ContentCache.get corruptDiskState "p" [] 5).1 = none ∧
    dictGet (ContentCache.get corruptDiskState "p" [] 5).2.disk
      (generateKey "p" []) = none :=
  C3_amended_direct_write (some (DiskFile.entry "old" 0 "q" []))
    (DiskFile.entry "new" 5 "q" []) corruptDiskState "p" [] 5
    "old" 0 "q" [] rfl (by decide) (by decide)

/-- C4 counterexample: `__init__` performs no validation of
`memory_cache_size`: construction with a zero or negative capacity succeeds
(the constructor is total — it has no failure path), and the resulting cache
even accepts an entry instead of failing fatally. -/
theorem C4_counterexample :
    (ContentCache.init String 0 86400).memory_cache_size = 0 ∧
    (ContentCache.init String (-3) 86400).memory_cache_size = -3 ∧
    (ContentCache.set (ContentCache.init String 0 86400) "A" "a1" [] 1
      ).memory_cache.length = 1 := by decide

/-- C4 amended: construction with a non-positive capacity succeeds silently
— no error is raised — and a subsequent `set` on the fresh cache stores
exactly the new entry in the memory tier (the guarded eviction finds the
empty access map and does nothing). -/
theorem C4_amended_no_validation {α : Type} (cap ttl : Int) (prompt : String)
    (content : α) (kwargs : Params) (now : Int) (hcap : cap ≤ 0) :
    (ContentCache.init α cap ttl).memory_cache_size = cap ∧
    (ContentCache.set (ContentCache.init α cap ttl) prompt content kwargs now
      ).memory_cache = [(generateKey prompt kwargs, (content, now))] := by
  refine ⟨rfl, ?_⟩
  have hcond : (((ContentCache.init α cap ttl).memory_cache.length : Int) ≥
      (ContentCache.init α cap ttl).memory_cache_size) := by
    show ((0 : Nat) : Int) ≥ cap
    omega
  simp [ContentCache.set, addToMemory, evictLru, ContentCache.init, minByValue,
    dictSet, hcond]

/-- Witness for the amended C4 at capacity 0. -/
theorem C4_amended_no_validation_witness :
    (ContentCache.init String 0 86400).memory_cache_size = 0 ∧
    (ContentCache.set (ContentCache.init String 0 86400) "A" "a1" [] 1
      ).memory_cache = [(generateKey "A" [], ("a1", 1))] :=
  C4_amended_no_validation 0 86400 "A" "a1" [] 1 (by decide)

/-- C5: the specification's scenario, executed step by step: capacity 2,
TTL 1000 s; `set("A","a1")`, `set("B","b1")`, `set("C","c1")` at successive
clock readings leave the memory tier holding exactly the keys of B and C;
`get("A")` then returns "a1" via disk promotion, after which memory holds
exactly the keys of C and A; and the statistics report total_hits = 1,
disk_hits = 1, memory_hits = 0, total_misses = 0, evictions = 2. -/
theorem C5_scenario :
    keysOf (ContentCache.set (ContentCache.set (ContentCache.set
        (ContentCache.init String 2 1000) "A" "a1" [] 1) "B" "b1" [] 2)
        "C" "c1" [] 3).memory_cache =
      [generateKey "B" [], generateKey "C" []] ∧
    (ContentCache.get (ContentCache.set (ContentCache.set (ContentCache.set
        (ContentCache.init String 2 1000) "A" "a1" [] 1) "B" "b1" [] 2)
        "C" "c1" [] 3) "A" [] 4).1 = some "a1" ∧
    keysOf (ContentCache.get (ContentCache.set (ContentCache.set
        (ContentCache.set (ContentCache.init String 2 1000) "A" "a1" [] 1)
        "B" "b1" [] 2) "C" "c1" [] 3) "A" [] 4).2.memory_cache =
      [generateKey "C" [], generateKey "A" []] ∧
    getStats (ContentCache.get (ContentCache.set (ContentCache.set
        (ContentCache.set (ContentCache.init String 2 1000) "A" "a1" [] 1)
        "B" "b1" [] 2) "C" "c1" [] 3) "A" [] 4).2 =
      { memory_entries := 2, disk_entries := 3, total_hits := 1,
        total_misses := 0, memory_hits := 0, disk_hits := 1,
        evictions := 2 } := by decide

/-- C6: for every key whose disk file exists but is corrupt (unreadable or
failing to deserialize) and which is absent from the memory tier, `get`
returns absent — the embedding of `get` is a total function, mirroring that
the `pickle.load` exception is caught and never surfaced — and afterwards
the offending file no longer exists on disk. -/
theorem C6_corrupt_file_self_healing {α : Type} (s : CacheState α)
    (prompt : String) (kwargs : Params) (now : Int)
    (hmem : dictGet s.memory_cache (generateKey prompt kwargs) = none)
    (hdisk : dictGet s.disk (generateKey prompt kwargs) = some DiskFile.corrupt) :
    (ContentCache.get s prompt kwargs now).1 = none ∧
    dictGet (ContentCache.get s prompt kwargs now).2.disk
      (generateKey prompt kwargs) = none :=
  getByKey_corrupt s (generateKey prompt kwargs) now hmem hdisk

/-- Witness for C6: garbage bytes at the fingerprint's cache file. -/
theorem C6_corrupt_file_self_healing_witness :
    (ContentCache.get corruptDiskState "p" [] 5).1 = none ∧
    dictGet (ContentCache.get corruptDiskState "p" [] 5).2.disk
      (generateKey "p" []) = none :=
  C6_corrupt_file_self_healing corruptDiskState "p" [] 5 (by decide) (by decide)

/-- C7: the cache key is independent of the order in which the auxiliary
parameters are supplied (the serialization sorts them by name), and
therefore two `get`s differing only in parameter order behave identically
on every state. -/
theorem C7_param_order_independence {α : Type} (prompt : String)
    (l1 l2 : Params) (hperm : l1.Perm l2) (hnd : (l1.map Prod.fst).Nodup) :
    generateKey prompt l1 = generateKey prompt l2 ∧
    ∀ (s : CacheState α) (now : Int),
      ContentCache.get s prompt l1 now = ContentCache.get s prompt l2 now := by
  letI : IsTotal (String × PValue) (fun a b => a.1 ≤ b.1) :=
    ⟨fun a b => le_total a.1 b.1⟩
  letI : IsTrans (String × PValue) (fun a b => a.1 ≤ b.1) :=
    ⟨fun a b c hab hbc => le_trans hab hbc⟩
  letI : IsAntisymm (String × PValue) (fun a b => a.1 < b.1) :=
    ⟨fun a b h1 h2 => absurd (lt_trans h1 h2) (lt_irrefl _)⟩
  have strict : ∀ (l : Params), (l.map Prod.fst).Nodup →
      (sortParams l).Pairwise (fun a b => a.1 < b.1) := by
    intro l hl
    have hsorted : (sortParams l).Pairwise (fun a b => a.1 ≤ b.1) :=
      List.sorted_insertionSort _ l
    have hnodup : ((sortParams l).map Prod.fst).Nodup :=
      (((List.perm_insertionSort _ l).map Prod.fst).nodup_iff).mpr hl
    have hne : (sortParams l).Pairwise (fun a b => a.1 ≠ b.1) :=
      (List.pairwise_map).mp hnodup
    exact (hsorted.and hne).imp (fun hab => lt_of_le_of_ne hab.1 hab.2)
  have hnd2 : (l2.map Prod.fst).Nodup := ((hperm.map Prod.fst).nodup_iff).mp hnd
  have hperm' : List.Perm (sortParams l1) (sortParams l2) :=
    (List.perm_insertionSort _ l1).trans
      (hperm.trans (List.perm_insertionSort _ l2).symm)
  have hsort : sortParams l1 = sortParams l2 :=
    List.eq_of_perm_of_sorted hperm' (strict l1 hnd) (strict l2 hnd2)
  have hkey : generateKey prompt l1 = generateKey prompt l2 := by
    unfold generateKey jsonDumpsSorted
    rw [hsort]
  refine ⟨hkey, fun s now => ?_⟩
  unfold ContentCache.get
  rw [hkey]

/-- Witness for C7 on two concrete parameter orders. -/
theorem C7_param_order_independence_witness :
    generateKey "t" [("a", PValue.int 1), ("b", PValue.int 2)] =
      generateKey "t" [("b", PValue.int 2), ("a", PValue.int 1)] ∧
    ContentCache.get (ContentCache.init String 2 1000) "t"
        [("a", PValue.int 1), ("b", PValue.int 2)] 5 =
      ContentCache.get (ContentCache.init String 2 1000) "t"
        [("b", PValue.int 2), ("a", PValue.int 1)] 5 :=
  ⟨(C7_param_order_independence (α := String) "t"
      [("a", PValue.int 1), ("b", PValue.int 2)]
      [("b", PValue.int 2), ("a", PValue.int 1)] (by decide) (by decide)).1,
   (C7_param_order_independence "t"
      [("a", PValue.int 1), ("b", PValue.int 2)]
      [("b", PValue.int 2), ("a", PValue.int 1)] (by decide) (by decide)).2
     (ContentCache.init String 2 1000) 5⟩

/-- C8 counterexample: the invariant is not preserved by every operation on
every constructible cache: construction with capacity 0 succeeds (see C4),
the empty cache satisfies the invariant, and a single `set` then leaves the
memory tier with one entry — exceeding the configured capacity. -/
theorem C8_counterexample :
    Inv (ContentCache.init String 0 1000) ∧
    ¬ Inv (ContentCache.set (ContentCache.init String 0 1000) "A" "a1" [] 1) := by
  constructor
  · exact ⟨by decide, by decide⟩
  · intro hv
    exact absurd hv.1 (by decide)

/-- C8 amended: on every cache whose configured capacity is at least 1,
each operation — `get`, `set`, `clear`, `cleanup_expired` (and `stats`,
which does not modify state) — preserves the memory-tier invariant: the
value map never exceeds the capacity, and the value map and access-time map
bind exactly the same keys. -/
theorem C8_amended_inv_preservation {α : Type} (s : CacheState α)
    (prompt : String) (content : α) (kwargs : Params) (now : Int)
    (memoryOnly : Bool) (hcap : 1 ≤ s.memory_cache_size) (h : Inv s) :
    Inv (ContentCache.get s prompt kwargs now).2 ∧
    Inv (ContentCache.set s prompt content kwargs now) ∧
    Inv (clear s memoryOnly) ∧
    Inv (cleanupExpired s now).2 :=
  ⟨getByKey_inv s (generateKey prompt kwargs) now hcap h,
   set_inv s prompt content kwargs now hcap h,
   clear_inv s memoryOnly hcap,
   cleanupExpired_inv s now h⟩

/-- Witness for the amended C8 at a concrete full cache. -/
theorem C8_amended_inv_preservation_witness :
    Inv (ContentCache.get fullState "A" [] 5).2 ∧
    Inv (ContentCache.set fullState "A" "c1" [] 5) ∧
    Inv (clear fullState false) ∧
    Inv (cleanupExpired fullState 5).2 :=
  C8_amended_inv_preservation fullState "A" "c1" [] 5 false (by decide)
    ⟨by decide, by decide⟩

/-- C9 counterexample: not every Coordinator operation acquires the single
exclusive lock — `cleanup_expired` runs its entire disk scan and deletion
pass without acquiring it. -/
theorem C9_counterexample :
    ¬ ∀ op : CoordinatorOp, acquiresLock op = true :=
  fun h => absurd (h CoordinatorOp.cleanupExpired) (by decide)

/-- C9 amended: `get`, `set`, `clear` and `stats` each wrap their
shared-state accesses in the single exclusive lock and are mutually
serialized, but `cleanup_expired` acquires no lock at all, so it is not
serialized against the other four. -/
theorem C9_amended_lock_discipline :
    acquiresLock CoordinatorOp.get = true ∧
    acquiresLock CoordinatorOp.set = true ∧
    acquiresLock CoordinatorOp.clear = true ∧
    acquiresLock CoordinatorOp.stats = true ∧
    acquiresLock CoordinatorOp.cleanupExpired = false := by decide

/-- C10 counterexample: a capacity-2 cache holding the keys of "A" and "B"
with "A" least recently touched; overwriting "A" at full capacity evicts
"A" itself (then re-inserts it), so no different key is removed — "B"
survives with its value and the tier still holds both keys — although the
eviction counter does increment. -/
theorem C10_counterexample :
    keysOf fullState.memory_cache = [generateKey "A" [], generateKey "B" []] ∧
    fullState.stats.evictions = 0 ∧
    dictGet (ContentCache.set fullState "A" "a2" [] 3).memory_cache
      (generateKey "A" []) = some ("a2", 3) ∧
    dictGet (ContentCache.set fullState "A" "a2" [] 3).memory_cache
      (generateKey "B" []) = some ("b1", 2) ∧
    (ContentCache.set fullState "A" "a2" [] 3).memory_cache.length = 2 ∧
    (ContentCache.set fullState "A" "a2" [] 3).stats.evictions = 1 := by decide

/-- C10 amended: an insert for a key already present in a full memory tier
still evicts the entry with the oldest access time before storing the new
value, and increments the eviction counter — but the evicted entry is the
access-time-minimal one, which may be the overwritten key itself, in which
case no different key leaves the tier. -/
theorem C10_amended_overwrite_still_evicts {α : Type} (s : CacheState α)
    (k : Key) (c : α) (ts now : Int)
    (hkeys : keysOf s.memory_cache = keysOf s.access_times)
    (hcap : 1 ≤ s.memory_cache_size)
    (hfull : (s.memory_cache.length : Int) ≥ s.memory_cache_size)
    (_hpresent : (dictGet s.memory_cache k).isSome) :
    ∃ e te, minByValue s.access_times = some (e, te) ∧
      (∀ q ∈ s.access_times, te ≤ q.2) ∧
      (addToMemory s k c ts now).memory_cache =
        dictSet (dictPop s.memory_cache e) k (c, ts) ∧
      (addToMemory s k c ts now).stats.evictions = s.stats.evictions + 1 := by
  obtain ⟨e, te, hm, _, hle, hmem, _, hev⟩ :=
    addToMemory_full_evicts s k c ts now hkeys hcap hfull
  exact ⟨e, te, hm, hle, hmem, hev⟩

/-- Witness for the amended C10: overwriting the LRU key itself. -/
theorem C10_amended_overwrite_still_evicts_witness :
    ∃ e te, minByValue fullState.access_times = some (e, te) ∧
      (∀ q ∈ fullState.access_times, te ≤ q.2) ∧
      (addToMemory fullState (generateKey "A" []) "a2" 3 3).memory_cache =
        dictSet (dictPop fullState.memory_cache e) (generateKey "A" []) ("a2", 3) ∧
      (addToMemory fullState (generateKey "A" []) "a2" 3 3).stats.evictions =
        fullState.stats.evictions + 1 :=
  C10_amended_overwrite_still_evicts fullState (generateKey "A" []) "a2" 3 3
    (by decide) (by decide) (by decide) (by decide)

end ContentCache
